import Mathlib

/-!
Verification of the mkgo repository: a shallow embedding of its path
resolver, template engine and orchestrator, with theorems checking the
specification's claims against the embedded code.

Strings of the Go program are modelled as lists of characters.  The two
program variants (the basic one from mkgo.go and the extended one with
license/readme generation) are embedded as pure functions from flags,
positional arguments and an operating-system oracle (a World) to an
Outcome together with the list of observable side effects of the run.
-/

set_option maxHeartbeats 1000000

/-- GoStr models a Go string as a list of characters. -/
abbrev GoStr := List Char

/-- Conversion from Lean string literals to GoStr. -/
def str (s : String) : GoStr := s.data

/-- splitOn sep p splits p at every occurrence of the character sep; the
result always has one more piece than there are separators. -/
def splitOn (sep : Char) (p : GoStr) : List GoStr :=
  match p with
  | [] => [[]]
  | c :: rest =>
    if c = sep then [] :: splitOn sep rest
    else
      match splitOn sep rest with
      | [] => [[c]]
      | q :: qs => (c :: q) :: qs

/-- joinWith sep pieces concatenates pieces, placing sep between consecutive
pieces (model of strings.Join). -/
def joinWith (sep : GoStr) : List GoStr → GoStr
  | [] => []
  | [p] => p
  | p :: q :: rest => p ++ sep ++ joinWith sep (q :: rest)

/-- joinSep joins path components with the path separator character. -/
def joinSep (cs : List GoStr) : GoStr := joinWith (str "/") cs

/-- isRooted p: whether path p begins with the path separator. -/
def isRooted (p : GoStr) : Bool :=
  match p with
  | c :: _ => c == '/'
  | [] => false

/-- goSplit models path/filepath.Split on unix: it splits p immediately after
the final separator into a directory part (keeping the trailing separator)
and a file part; with no separator the directory part is empty. -/
def goSplit (p : GoStr) : GoStr × GoStr :=
  ((p.reverse.dropWhile fun c => c != '/').reverse,
   (p.reverse.takeWhile fun c => c != '/').reverse)

/-- cleanStep is one element step of the stack pass of path/filepath.Clean:
empty and dot elements are dropped, a dotdot element pops a poppable stack
top, is dropped at the root, and is kept otherwise; every other element is
pushed. -/
def cleanStep (rooted : Bool) (stack : List GoStr) (e : GoStr) : List GoStr :=
  if e = [] then stack
  else if e = str "." then stack
  else if e = str ".." then
    match stack with
    | [] => if rooted then [] else [str ".."]
    | top :: rest => if top = str ".." then e :: stack else rest
  else e :: stack

/-- goClean models path/filepath.Clean on unix: the empty path cleans to the
dot path, otherwise the slash-separated elements are processed by cleanStep
and rejoined, restoring a leading separator for rooted paths and producing
the dot path when nothing remains of a relative path. -/
def goClean (p : GoStr) : GoStr :=
  if p = [] then str "."
  else if isRooted p then
    '/' :: joinSep (((splitOn '/' p).foldl (cleanStep (isRooted p)) []).reverse)
  else if joinSep (((splitOn '/' p).foldl (cleanStep (isRooted p)) []).reverse) = []
    then str "."
  else joinSep (((splitOn '/' p).foldl (cleanStep (isRooted p)) []).reverse)

/-- goJoin models path/filepath.Join: leading empty elements are dropped, the
rest are joined with the separator and Cleaned; an all-empty input gives the
empty string. -/
def goJoin (elems : List GoStr) : GoStr :=
  match elems with
  | [] => []
  | e :: rest => if e = [] then goJoin rest else goClean (joinSep (e :: rest))

/-- splitList models path/filepath.SplitList on unix: the empty string gives
the empty list, otherwise the string is split at every list separator. -/
def splitList (s : GoStr) : List GoStr :=
  if s = [] then [] else splitOn ':' s

/-- splitPathAux is the extraction loop of the source's splitPath, made total
with explicit fuel: while the path is non-empty, goSplit extracts the final
component, a non-empty component is appended, and the loop continues on the
Cleaned directory part, stopping when that part is empty.  A none result
means the fuel ran out; since every iteration on a non-rooted path strictly
shortens it, fuel exhaustion at fuel length+1 corresponds to the Go loop
never terminating, which happens exactly on rooted paths, where Clean maps
the bare root to itself. -/
def splitPathAux : Nat → GoStr → List GoStr → Option (List GoStr)
  | 0, _, _ => none
  | fuel + 1, path, part =>
    if path.length = 0 then some part
    else
      let d := (goSplit path).1
      let f := (goSplit path).2
      let part' := if f.length > 0 then part ++ [f] else part
      if d.length > 0 then splitPathAux fuel (goClean d) part'
      else some part'

/-- splitPath models the source's splitPath: repeated goSplit extraction of
final components followed by reversal of the accumulated components. -/
def splitPath (p : GoStr) : Option (List GoStr) :=
  (splitPathAux (p.length + 1) p []).map List.reverse

/-- packagePath models the source's packagePath; env is the value of the
GOPATH environment variable.  The destination is assembled only when the
split environment list is non-empty, and the short name only when the
component list is non-empty; a none result propagates splitPath divergence. -/
def packagePath (env p : GoStr) : Option (GoStr × GoStr) :=
  (splitPath p).map fun part =>
    (match splitList env with
     | [] => []
     | g0 :: _ => goJoin [g0, str "src", goJoin part],
     match part.getLast? with
     | none => []
     | some n => n)

/-- replaceScan is the scanning core of strings.ReplaceAll for a non-empty
pattern: leftmost-first, non-overlapping global replacement.  The Nat
argument is fuel making the recursion structural; every step consumes at
least one character of the text, so fuel at least the text's length is
adequate, and the fuel-exhausted branch is unreachable then. -/
def replaceScan (pat rep : GoStr) : Nat → GoStr → GoStr
  | _, [] => []
  | 0, _ :: _ => []
  | fuel + 1, c :: rest =>
    if pat.isPrefixOf (c :: rest) then
      rep ++ replaceScan pat rep fuel (rest.drop (pat.length - 1))
    else
      c :: replaceScan pat rep fuel rest

/-- replaceStr runs replaceScan with adequate fuel. -/
def replaceStr (pat rep s : GoStr) : GoStr := replaceScan pat rep s.length s

/-- replaceAll models strings.ReplaceAll s pat rep; for an empty pattern Go
inserts the replacement before every rune and once at the end. -/
def replaceAll (s pat rep : GoStr) : GoStr :=
  if pat = [] then rep ++ s.foldr (fun c acc => c :: (rep ++ acc)) []
  else replaceStr pat rep s

/-- splitTokF decomposes the text into the pattern-free pieces lying between
the leftmost, non-overlapping occurrences of pat that replaceScan rewrites;
fuelled like replaceScan. -/
def splitTokF (pat : GoStr) : Nat → GoStr → List GoStr
  | _, [] => [[]]
  | 0, _ :: _ => [[]]
  | fuel + 1, c :: rest =>
    if pat.isPrefixOf (c :: rest) then
      [] :: splitTokF pat fuel (rest.drop (pat.length - 1))
    else
      match splitTokF pat fuel rest with
      | [] => [[c]]
      | q :: qs => (c :: q) :: qs

/-- splitTok runs splitTokF with adequate fuel. -/
def splitTok (pat s : GoStr) : List GoStr := splitTokF pat s.length s

/-- Template models the source's Template type: a file as a list of lines. -/
abbrev Template := List GoStr

/-- Template.string models the Template String method: lines joined by the
newline character, with no trailing newline appended. -/
def Template.string (t : Template) : GoStr := joinWith (str "\n") t

/-- insertB models the basic variant's Template.insert: per line, global
replacement of the name, date and version placeholder tokens, in that
order. -/
def insertB (tmpl : Template) (name date version : GoStr) : Template :=
  tmpl.map fun s =>
    replaceAll (replaceAll (replaceAll s
      (str "__NAME__") name)
      (str "__DATE__") date)
      (str "__VERSION__") version

/-- insertX models the extended variant's Template.insert: per line, global
replacement of the import path, name, date, version and user placeholder
tokens, in that order. -/
def insertX (tmpl : Template) (path name date version user : GoStr) : Template :=
  tmpl.map fun s =>
    replaceAll (replaceAll (replaceAll (replaceAll (replaceAll s
      (str "__IMPORT__") path)
      (str "__NAME__") name)
      (str "__DATE__") date)
      (str "__VERSION__") version)
      (str "__USER__") user

/-- templateB is the basic variant's compiled-in source template. -/
def templateB : Template :=
  [str "package main",
   str "",
   str "import (",
   str "\t\"flag\"",
   str "\t\"fmt\"",
   str "",
   str "\t\"github.com/ardnew/version\"",
   str ")",
   str "",
   str "func init() \x7b",
   str "\tversion.ChangeLog = []version.Change\x7b\x7b",
   str "\t\tPackage: \"__NAME__\",",
   str "\t\tVersion: \"__VERSION__\",",
   str "\t\tDate:    \"__DATE__\",",
   str "\t\tDescription: []string\x7b",
   str "\t\t\t\"initial implementation\",",
   str "\t\t\x7d,",
   str "\t\x7d\x7d",
   str "\x7d",
   str "",
   str "func main() \x7b",
   str "",
   str "\tvar (",
   str "\t\targChangeLog bool",
   str "\t\targVersion   bool",
   str "\t)",
   str "",
   str "\tflag.BoolVar(&argChangeLog, \"changelog\", false, \"display change history\")",
   str "\tflag.BoolVar(&argVersion, \"version\", false, \"display version information\")",
   str "\tflag.Parse()",
   str "",
   str "\tif argChangeLog \x7b",
   str "\t\tversion.PrintChangeLog()",
   str "\t\x7d else if argVersion \x7b",
   str "\t\tfmt.Printf(\"__NAME__ version %s\\n\", version.String())",
   str "\t\x7d else \x7b",
   str "\t\t// main",
   str "\t\x7d",
   str "\x7d"]

/-- templateX is the extended variant's compiled-in source template, with the
abbreviated flags of the later revision. -/
def templateX : Template :=
  [str "package main",
   str "",
   str "import (",
   str "\t\"flag\"",
   str "\t\"fmt\"",
   str "",
   str "\t\"github.com/ardnew/version\"",
   str ")",
   str "",
   str "func init() \x7b",
   str "\tversion.ChangeLog = []version.Change\x7b\x7b",
   str "\t\tPackage: \"__NAME__\",",
   str "\t\tVersion: \"__VERSION__\",",
   str "\t\tDate:    \"__DATE__\",",
   str "\t\tDescription: []string\x7b",
   str "\t\t\t\"initial implementation\",",
   str "\t\t\x7d,",
   str "\t\x7d\x7d",
   str "\x7d",
   str "",
   str "func main() \x7b",
   str "",
   str "\tvar (",
   str "\t\targVersion bool",
   str "\t\targChanges bool",
   str "\t)",
   str "",
   str "\tflag.BoolVar(&argVersion, \"v\", false, \"Display version information\")",
   str "\tflag.BoolVar(&argChanges, \"V\", false, \"Display change history\")",
   str "\tflag.Parse()",
   str "",
   str "\tif argChanges \x7b",
   str "\t\tversion.PrintChangeLog()",
   str "\t\x7d else if argVersion \x7b",
   str "\t\tfmt.Printf(\"__NAME__ version %s\\n\", version.String())",
   str "\t\x7d else \x7b",
   str "\t\t// main",
   str "\t\x7d",
   str "\x7d"]

/-- mitLicense is the extended variant's MIT license template. -/
def mitLicense : Template :=
  [str "MIT License",
   str "",
   str "Copyright (c) 2020 __USER__",
   str "",
   str "Permission is hereby granted, free of charge, to any person obtaining a copy",
   str "of this software and associated documentation files (the \"Software\"), to deal",
   str "in the Software without restriction, including without limitation the rights",
   str "to use, copy, modify, merge, publish, distribute, sublicense, and/or sell",
   str "copies of the Software, and to permit persons to whom the Software is",
   str "furnished to do so, subject to the following conditions:",
   str "",
   str "The above copyright notice and this permission notice shall be included in all",
   str "copies or substantial portions of the Software.",
   str "",
   str "THE SOFTWARE IS PROVIDED \"AS IS\", WITHOUT WARRANTY OF ANY KIND, EXPRESS OR",
   str "IMPLIED, INCLUDING BUT NOT LIMITED TO THE WARRANTIES OF MERCHANTABILITY,",
   str "FITNESS FOR A PARTICULAR PURPOSE AND NONINFRINGEMENT. IN NO EVENT SHALL THE",
   str "AUTHORS OR COPYRIGHT HOLDERS BE LIABLE FOR ANY CLAIM, DAMAGES OR OTHER",
   str "LIABILITY, WHETHER IN AN ACTION OF CONTRACT, TORT OR OTHERWISE, ARISING FROM,",
   str "OUT OF OR IN CONNECTION WITH THE SOFTWARE OR THE USE OR OTHER DEALINGS IN THE",
   str "SOFTWARE.\t\t\t"]

/-- readmeT is the extended variant's readme template. -/
def readmeT : Template :=
  [str "[docimg]:https://godoc.org/__IMPORT__?status.svg",
   str "[docurl]:https://godoc.org/__IMPORT__",
   str "[repimg]:https://goreportcard.com/badge/__IMPORT__",
   str "[repurl]:https://goreportcard.com/report/__IMPORT__",
   str "",
   str "# __NAME__",
   str "#### __NAME__",
   str "",
   str "[![GoDoc][docimg]][docurl] [![Go Report Card][repimg]][repurl]",
   str "",
   str "## Usage",
   str "",
   str "How to use:",
   str "",
   str "```sh",
   str "__NAME__ ...",
   str "```",
   str "",
   str "Use the `-h` flag for usage summary:",
   str "",
   str "```",
   str "Usage of __NAME__:",
   str "  -changelog",
   str "\t\tdisplay change history",
   str "  -version",
   str "\t\tdisplay version information",
   str "```",
   str "",
   str "## Installation",
   str "",
   str "Use the builtin Go package manager:",
   str "",
   str "```sh",
   str "go get -v __IMPORT__",
   str "```"]

/-- licenseTemplate models the extended variant's license map lookup: only
the MIT key is present. -/
def licenseTemplate (k : GoStr) : Option Template :=
  if k = str "MIT" then some mitLicense else none

/-- StatOutcome abstracts the result of os.Stat on one path: success carrying
the directory bit, a not-exist error, or any other error (e.g. permission
denied), in which case Stat returns a nil FileInfo alongside the error. -/
inductive StatOutcome
  | ok (isDir : Bool)
  | errNotExist
  | errOther
deriving DecidableEq

/-- fileExists models the source's fileExists.  On success exists is true and
isDir is the stat's directory bit; on a not-exist error both are false, the
conjunction short-circuiting before the nil FileInfo is touched; on any
other error exists is true, so the Go code calls IsDir on a nil FileInfo,
a nil-pointer panic, modelled as none. -/
def fileExists : StatOutcome → Option (Bool × Bool)
  | .ok d => some (true, d)
  | .errNotExist => some (false, false)
  | .errOther => none

/-- Event records one observable side effect of a run. -/
inductive Event
  | mkdir (path : GoStr)
  | write (path content : GoStr)
  | exec (dir cmd : GoStr) (args : List GoStr)
  | output (text : GoStr)
  | changelog
deriving DecidableEq

/-- Outcome of a run: process termination with an exit code (0 for a normal
return from main), a runtime panic, or divergence in an infinite loop. -/
inductive Outcome
  | exit (code : Nat)
  | panicked
  | diverge
deriving DecidableEq

/-- Event.isWrite: whether the event is a file write. -/
def Event.isWrite : Event → Bool
  | .write _ _ => true
  | _ => false

/-- Event.isExec: whether the event is an external tool invocation. -/
def Event.isExec : Event → Bool
  | .exec _ _ _ => true
  | _ => false

/-- Event.isMkdir: whether the event is a directory creation. -/
def Event.isMkdir : Event → Bool
  | .mkdir _ => true
  | _ => false

/-- Event.isExecOf c: whether the event invokes the external command c. -/
def Event.isExecOf (c : GoStr) : Event → Bool
  | .exec _ cmd _ => decide (cmd = c)
  | _ => false

/-- Event.isWriteTo p: whether the event writes to path p. -/
def Event.isWriteTo (p : GoStr) : Event → Bool
  | .write q _ => decide (q = p)
  | _ => false

/-- World supplies the outcome of every operating-system interaction of one
run: the GOPATH value, whether MkdirAll succeeds (with its error text), the
Stat outcome per path, whether WriteFile succeeds per path (with its error
text), and each external tool's combined output and success. -/
structure World where
  gopath : GoStr
  mkdirOk : Bool
  mkdirErrMsg : GoStr
  stat : GoStr → StatOutcome
  writeOk : GoStr → Bool
  writeErrMsg : GoStr
  fmtOut : GoStr
  fmtOk : Bool
  initOut : GoStr
  initOk : Bool

/-- Event.isOkWrite w: whether the event is a write to a path whose write
succeeds in world w. -/
def Event.isOkWrite (w : World) : Event → Bool
  | .write p _ => w.writeOk p
  | _ => false

/-- FlagsB: the basic variant's command-line flags. -/
structure FlagsB where
  changelog : Bool
  version : Bool
  mkDate : GoStr
  mkVersion : GoStr
  overwrite : Bool

/-- FlagsX: the extended variant's command-line flags. -/
structure FlagsX where
  changelog : Bool
  version : Bool
  mkDate : GoStr
  mkVersion : GoStr
  readme : Bool
  license : GoStr
  user : GoStr
  overwrite : Bool

/-- dirErrMsg p: the error line printed for the is-a-directory condition. -/
def dirErrMsg (p : GoStr) : GoStr :=
  str "error: output file is a directory: " ++ p ++ str "\n"

/-- existsErrMsg p: the error line printed for the already-exists condition. -/
def existsErrMsg (p : GoStr) : GoStr :=
  str "error: file exists (use -f to overwrite): " ++ p ++ str "\n"

/-- successMsg: the confirmation line printed on full success. -/
def successMsg (arg0 path : GoStr) : GoStr :=
  str "mkgo: successfully created \"" ++ arg0 ++ str "\": " ++ path ++ str "\n"

/-- mainB models the basic variant's main function.  The changelog flag wins
over everything, then the version flag; otherwise the module identifier is
resolved, the destination directory created, and the source file written
unless it exists without the overwrite flag, followed by the two external
tool invocations. -/
def mainB (fl : FlagsB) (args : List GoStr) (w : World) : Outcome × List Event :=
  if fl.changelog then (.exit 0, [.changelog])
  else if fl.version then (.exit 0, [.output (str "mkgo version 0.1.0\n")])
  else
    match args with
    | [] => (.exit 1, [.output (str "error: no package path specified (use -h for help)\n")])
    | arg0 :: _ =>
      match packagePath w.gopath arg0 with
      | none => (.diverge, [])
      | some (path, name) =>
        if w.mkdirOk = false then
          (.exit 2, [.mkdir path, .output (str "error: " ++ w.mkdirErrMsg ++ str "\n")])
        else
          let sourcePath := goJoin [path, name ++ str ".go"]
          match fileExists (w.stat sourcePath) with
          | none => (.panicked, [.mkdir path])
          | some (ex, isDir) =>
            if !ex || fl.overwrite then
              if isDir then (.exit 3, [.mkdir path, .output (dirErrMsg sourcePath)])
              else
                let content := Template.string (insertB templateB name fl.mkDate fl.mkVersion)
                if w.writeOk sourcePath then
                  if w.fmtOk then
                    if w.initOk then
                      (.exit 0,
                       [.mkdir path, .write sourcePath content,
                        .exec path (str "goimports") [str "-w", name ++ str ".go"],
                        .exec path (str "go") [str "mod", str "init"],
                        .output (successMsg arg0 path)])
                    else
                      (.exit 6,
                       [.mkdir path, .write sourcePath content,
                        .exec path (str "goimports") [str "-w", name ++ str ".go"],
                        .exec path (str "go") [str "mod", str "init"],
                        .output w.initOut])
                  else
                    (.exit 5,
                     [.mkdir path, .write sourcePath content,
                      .exec path (str "goimports") [str "-w", name ++ str ".go"],
                      .output w.fmtOut])
                else
                  (.exit 4, [.mkdir path, .write sourcePath content,
                    .output (str "error: " ++ w.writeErrMsg ++ str "\n")])
            else
              (.exit 7, [.mkdir path, .output (existsErrMsg sourcePath)])

/-- mainXReadme is the readme section of the extended variant's main; the
source reaches it unconditionally after the license section succeeds: the
readme flag is declared and parsed but never consulted.  evs are the events
accumulated by the earlier sections. -/
def mainXReadme (fl : FlagsX) (arg0 path name : GoStr) (w : World)
    (evs : List Event) : Outcome × List Event :=
  let readmePath := goJoin [path, str "README.md"]
  match fileExists (w.stat readmePath) with
  | none => (.panicked, evs)
  | some (ex, isDir) =>
    if !ex || fl.overwrite then
      if isDir then (.exit 9, evs ++ [.output (dirErrMsg readmePath)])
      else
        let content :=
          Template.string (insertX readmeT arg0 name fl.mkDate fl.mkVersion fl.user)
        if w.writeOk readmePath then
          (.exit 0, evs ++ [.write readmePath content, .output (successMsg arg0 path)])
        else
          (.exit 10, evs ++ [.write readmePath content,
            .output (str "error: " ++ w.writeErrMsg ++ str "\n")])
    else (.exit 11, evs ++ [.output (existsErrMsg readmePath)])

/-- mainXLicense is the license section of the extended variant's main.  The
license name is looked up unconditionally, so the empty default name is also
unknown and exits with code 8. -/
def mainXLicense (fl : FlagsX) (arg0 path name : GoStr) (w : World)
    (evs : List Event) : Outcome × List Event :=
  let licensePath := goJoin [path, str "LICENSE"]
  match licenseTemplate fl.license with
  | none =>
    (.exit 8, evs ++ [.output (str "error: unsupported license (use -h to view options): "
      ++ fl.license ++ str "\n")])
  | some ltmpl =>
    match fileExists (w.stat licensePath) with
    | none => (.panicked, evs)
    | some (ex, isDir) =>
      if !ex || fl.overwrite then
        if isDir then (.exit 9, evs ++ [.output (dirErrMsg licensePath)])
        else
          let content :=
            Template.string (insertX ltmpl arg0 name fl.mkDate fl.mkVersion fl.user)
          if w.writeOk licensePath then
            mainXReadme fl arg0 path name w (evs ++ [.write licensePath content])
          else
            (.exit 10, evs ++ [.write licensePath content,
              .output (str "error: " ++ w.writeErrMsg ++ str "\n")])
      else (.exit 11, evs ++ [.output (existsErrMsg licensePath)])

/-- mainX models the extended variant's main function: the source file
section mirrors the basic variant (with the five-token insert), then the
license and readme sections run in order, and the confirmation line is
printed only at the very end. -/
def mainX (fl : FlagsX) (args : List GoStr) (w : World) : Outcome × List Event :=
  if fl.changelog then (.exit 0, [.changelog])
  else if fl.version then (.exit 0, [.output (str "mkgo version 0.2.1\n")])
  else
    match args with
    | [] => (.exit 1, [.output (str "error: no package path specified (use -h for help)\n")])
    | arg0 :: _ =>
      match packagePath w.gopath arg0 with
      | none => (.diverge, [])
      | some (path, name) =>
        if w.mkdirOk = false then
          (.exit 2, [.mkdir path, .output (str "error: " ++ w.mkdirErrMsg ++ str "\n")])
        else
          let sourcePath := goJoin [path, name ++ str ".go"]
          match fileExists (w.stat sourcePath) with
          | none => (.panicked, [.mkdir path])
          | some (ex, isDir) =>
            if !ex || fl.overwrite then
              if isDir then (.exit 3, [.mkdir path, .output (dirErrMsg sourcePath)])
              else
                let content :=
                  Template.string (insertX templateX arg0 name fl.mkDate fl.mkVersion fl.user)
                if w.writeOk sourcePath then
                  if w.fmtOk then
                    if w.initOk then
                      mainXLicense fl arg0 path name w
                        [.mkdir path, .write sourcePath content,
                         .exec path (str "goimports") [str "-w", name ++ str ".go"],
                         .exec path (str "go") [str "mod", str "init"]]
                    else
                      (.exit 6,
                       [.mkdir path, .write sourcePath content,
                        .exec path (str "goimports") [str "-w", name ++ str ".go"],
                        .exec path (str "go") [str "mod", str "init"],
                        .output w.initOut])
                  else
                    (.exit 5,
                     [.mkdir path, .write sourcePath content,
                      .exec path (str "goimports") [str "-w", name ++ str ".go"],
                      .output w.fmtOut])
                else
                  (.exit 4, [.mkdir path, .write sourcePath content,
                    .output (str "error: " ++ w.writeErrMsg ++ str "\n")])
            else
              (.exit 7, [.mkdir path, .output (existsErrMsg sourcePath)])

/-- goodComp c: c is a normal path component of a module identifier, i.e.
non-empty, separator-free, and not a relative-path element. -/
def goodComp (c : GoStr) : Prop :=
  c ≠ [] ∧ '/' ∉ c ∧ c ≠ str "." ∧ c ≠ str ".."

instance : DecidablePred goodComp := fun c =>
  decidable_of_iff (c ≠ [] ∧ '/' ∉ c ∧ c ≠ str "." ∧ c ≠ str "..") Iff.rfl

/-- loopsForever p: the splitPath extraction loop started on p returns no
result under any fuel bound, i.e. the source loop never terminates on p. -/
def loopsForever (p : GoStr) : Prop :=
  ∀ fuel acc, splitPathAux fuel p acc = none

/-! ### Concrete worlds used by witnesses and concrete evaluations -/

/-- wFresh: GOPATH is g, every path is initially absent, and every
filesystem and tool operation succeeds. -/
def wFresh : World :=
  { gopath := str "g", mkdirOk := true, mkdirErrMsg := [],
    stat := fun _ => .errNotExist, writeOk := fun _ => true, writeErrMsg := [],
    fmtOut := [], fmtOk := true, initOut := [], initOk := true }

/-- wSrcFile: like wFresh but the source output path holds a regular file. -/
def wSrcFile : World :=
  { wFresh with stat := fun p => if p = str "g/src/a/b/b.go" then .ok false else .errNotExist }

/-- wSrcDir: like wFresh but the source output path is a directory. -/
def wSrcDir : World :=
  { wFresh with stat := fun p => if p = str "g/src/a/b/b.go" then .ok true else .errNotExist }

/-- wLicDir: like wFresh but the license output path is a directory. -/
def wLicDir : World :=
  { wFresh with stat := fun p => if p = str "g/src/a/b/LICENSE" then .ok true else .errNotExist }

/-- wReadmeDir: like wFresh but the readme output path is a directory. -/
def wReadmeDir : World :=
  { wFresh with stat := fun p => if p = str "g/src/a/b/README.md" then .ok true else .errNotExist }

/-- wFmtFail: like wFresh but the formatting tool fails with output fmtlog. -/
def wFmtFail : World :=
  { wFresh with fmtOk := false, fmtOut := str "fmtlog" }

/-! ### Claim theorems: C10, C9, C8 -/

/-- C10: fileExists is not total over all Stat outcomes.  On an error other
than not-exist (e.g. permission denied), exists is computed as true while
Stat returned a nil FileInfo, so the IsDir call is a nil-pointer panic,
recorded by the embedding as none; on the remaining outcomes the pair is
returned and its isDir component implies its exists component. -/
theorem fileExists_other_error_panics :
    fileExists StatOutcome.errOther = none
    ∧ fileExists (StatOutcome.ok true) = some (true, true)
    ∧ fileExists (StatOutcome.ok false) = some (true, false)
    ∧ fileExists StatOutcome.errNotExist = some (false, false) :=
  ⟨rfl, rfl, rfl, rfl⟩

/-- splitPathAux makes no progress on the bare root path: goSplit yields an
empty final component with the root as directory part, and Clean maps the
root to itself, so every fuel bound is exhausted. -/
theorem splitPathAux_root (fuel : Nat) :
    ∀ acc, splitPathAux fuel (str "/") acc = none := by
  induction fuel with
  | zero => intro acc; rfl
  | succ n ih =>
    intro acc
    have h : splitPathAux (n + 1) (str "/") acc = splitPathAux n (str "/") acc := rfl
    rw [h]
    exact ih acc

/-- C9: splitPath does not terminate on every input.  On rooted paths the
extraction loop reaches the bare root and then repeats it forever: every
fuel bound is exhausted for the rooted path /a/b and for the bare root. -/
theorem splitPath_rooted_loops :
    loopsForever (str "/a/b") ∧ loopsForever (str "/") := by
  constructor
  · intro fuel acc
    match fuel with
    | 0 => rfl
    | 1 => rfl
    | (n + 2) =>
      have h : splitPathAux (n + 2) (str "/a/b") acc
          = splitPathAux n (str "/") ((acc ++ [str "b"]) ++ [str "a"]) := rfl
      rw [h]
      exact splitPathAux_root n _
  · intro fuel acc
    exact splitPathAux_root fuel acc

/-- C8: with the changelog flag set, both variants print the change history
and stop with exit code 0, performing no directory creation, no file write
and no tool invocation, regardless of all other flags and arguments. -/
theorem mkgo_changelog_pure (flB : FlagsB) (flX : FlagsX) (argsB argsX : List GoStr)
    (wB wX : World) (hB : flB.changelog = true) (hX : flX.changelog = true) :
    mainB flB argsB wB = (Outcome.exit 0, [Event.changelog])
    ∧ mainX flX argsX wX = (Outcome.exit 0, [Event.changelog]) := by
  constructor
  · simp [mainB, hB]
  · simp [mainX, hX]

/-- Witness for C8 at concrete inputs. -/
theorem mkgo_changelog_pure_witness :
    mainB ⟨true, true, str "D", str "V", true⟩ [str "a/b"] wFresh
      = (Outcome.exit 0, [Event.changelog])
    ∧ mainX ⟨true, false, str "D", str "V", true, str "MIT", str "u", false⟩ [] wFresh
      = (Outcome.exit 0, [Event.changelog]) :=
  mkgo_changelog_pure _ _ _ _ _ _ rfl rfl

/-! ### Claim theorems: C2, and the counterexamples of C1, C3, C5 -/

/-- C2: evaluation of the extended variant at the failing inputs.  A run
omitting both the license and the readme flag reaches the unconditional
license lookup, whose default empty name is unknown, and exits with code 8
after the source file was already written (and before any license or readme
write); and a run with the MIT license and the readme flag still unset
succeeds and nevertheless writes the readme file, since the readme flag is
never consulted. -/
theorem mkgo_ext_license_readme_ungated_eval :
    (mainX ⟨false, false, str "2020 Oct 10", str "0.1.0", false, [], str "andrew", false⟩
        [str "a/b"] wFresh).1 = Outcome.exit 8
    ∧ ((mainX ⟨false, false, str "2020 Oct 10", str "0.1.0", false, [], str "andrew", false⟩
        [str "a/b"] wFresh).2.any (Event.isWriteTo (str "g/src/a/b/b.go"))) = true
    ∧ ((mainX ⟨false, false, str "2020 Oct 10", str "0.1.0", false, [], str "andrew", false⟩
        [str "a/b"] wFresh).2.any (Event.isWriteTo (str "g/src/a/b/LICENSE"))) = false
    ∧ ((mainX ⟨false, false, str "2020 Oct 10", str "0.1.0", false, [], str "andrew", false⟩
        [str "a/b"] wFresh).2.any (Event.isWriteTo (str "g/src/a/b/README.md"))) = false
    ∧ (mainX ⟨false, false, str "2020 Oct 10", str "0.1.0", false, str "MIT", str "andrew", false⟩
        [str "a/b"] wFresh).1 = Outcome.exit 0
    ∧ ((mainX ⟨false, false, str "2020 Oct 10", str "0.1.0", false, str "MIT", str "andrew", false⟩
        [str "a/b"] wFresh).2.any (Event.isWriteTo (str "g/src/a/b/README.md"))) = true :=
  ⟨rfl, rfl, rfl, rfl, rfl, rfl⟩

/-- C1 counterexample: a run in which the computed source output path is an
existing directory and the force flag is unset exits with code 7, the
already-exists condition, not with the is-a-directory code 3 the claim
requires regardless of the flag. -/
theorem mkgo_dir_conflict_cx :
    (mainB ⟨false, false, str "D", str "V", false⟩ [str "a/b"] wSrcDir).1 = Outcome.exit 7
    ∧ (mainB ⟨false, false, str "D", str "V", false⟩ [str "a/b"] wSrcDir).1
        ≠ Outcome.exit 3 := by
  have h : (mainB ⟨false, false, str "D", str "V", false⟩ [str "a/b"] wSrcDir).1
      = Outcome.exit 7 := rfl
  exact ⟨h, by rw [h]; simp⟩

/-- C3 counterexample: with an empty GOPATH the resolver does not fail, but
the destination it returns is the empty string, not the joined relative
components a/b the claim expects. -/
theorem packagePath_empty_gopath_cx :
    packagePath [] (str "a/b") = some ([], str "b")
    ∧ packagePath [] (str "a/b") ≠ some (str "a/b", str "b") := by
  constructor
  · rfl
  · decide

/-- C5 counterexample: rendering the template line __NA__DATE__ME__ with
name X, empty date and version V — none of which contains any placeholder
sentinel — leaves the supplied name token's sentinel __NAME__ in the
output: replacing the date token fuses the surrounding fragments into a
fresh sentinel, so the supplied-token output is not sentinel-free. -/
theorem template_insert_fusion_cx :
    insertB [str "__NA__DATE__ME__"] (str "X") [] (str "V") = [str "__NAME__"]
    ∧ (str "__NAME__" <:+: str "__NAME__")
    ∧ ¬ str "__NAME__" <:+: str "X" ∧ ¬ str "__DATE__" <:+: str "X"
    ∧ ¬ str "__VERSION__" <:+: str "X"
    ∧ ¬ str "__NAME__" <:+: ([] : GoStr) ∧ ¬ str "__DATE__" <:+: ([] : GoStr)
    ∧ ¬ str "__VERSION__" <:+: ([] : GoStr)
    ∧ ¬ str "__NAME__" <:+: str "V" ∧ ¬ str "__DATE__" <:+: str "V"
    ∧ ¬ str "__VERSION__" <:+: str "V" := by
  decide

/-! ### Path resolver lemmas -/

theorem splitOn_ne_nil (sep : Char) (p : GoStr) : splitOn sep p ≠ [] := by
  cases p with
  | nil => simp [splitOn]
  | cons c rest =>
    simp only [splitOn]
    split
    · simp
    · split
      · simp
      · simp

theorem splitOn_append (sep : Char) (a : GoStr) (r q : GoStr) (qs : List GoStr)
    (ha : sep ∉ a) (hr : splitOn sep r = q :: qs) :
    splitOn sep (a ++ r) = (a ++ q) :: qs := by
  induction a with
  | nil => simpa using hr
  | cons c t ih =>
    have hc : ¬ c = sep := by rintro rfl; exact ha (by simp)
    have ht : sep ∉ t := fun h => ha (by simp [h])
    simp only [List.cons_append, splitOn, List.append_eq, if_neg hc]
    rw [ih ht]

theorem joinSep_cons (c : GoStr) (cs : List GoStr) (h : cs ≠ []) :
    joinSep (c :: cs) = c ++ '/' :: joinSep cs := by
  cases cs with
  | nil => exact absurd rfl h
  | cons d t =>
    have hs : (str "/" : GoStr) = ['/'] := rfl
    simp [joinSep, joinWith, hs, List.append_assoc]

theorem joinSep_ne_nil (c : GoStr) (cs : List GoStr) (hc : c ≠ []) :
    joinSep (c :: cs) ≠ [] := by
  cases cs with
  | nil => exact hc
  | cons d t =>
    rw [joinSep_cons c (d :: t) (by simp)]
    cases c with
    | nil => exact absurd rfl hc
    | cons x xs => simp

theorem joinSep_head (c : GoStr) (cs : List GoStr) : ∃ t, joinSep (c :: cs) = c ++ t := by
  cases cs with
  | nil => exact ⟨[], by simp [joinSep, joinWith]⟩
  | cons d t => exact ⟨'/' :: joinSep (d :: t), joinSep_cons _ _ (by simp)⟩

theorem splitOn_joinSep : ∀ (cs : List GoStr), cs ≠ [] → (∀ c ∈ cs, '/' ∉ c) →
    splitOn '/' (joinSep cs) = cs := by
  intro cs
  induction cs with
  | nil => intro h; exact absurd rfl h
  | cons c t ih =>
    intro _ hs
    cases t with
    | nil =>
      have h1 : splitOn '/' ([] : GoStr) = [] :: [] := rfl
      have h2 := splitOn_append '/' c [] [] [] (hs c (by simp)) h1
      simpa using h2
    | cons d t' =>
      have ihr : splitOn '/' (joinSep (d :: t')) = d :: t' :=
        ih (by simp) (fun x hx => hs x (by simp [hx]))
      have hr2 : splitOn '/' ('/' :: joinSep (d :: t')) = [] :: (d :: t') := by
        simp [splitOn, ihr]
      have h3 := splitOn_append '/' c ('/' :: joinSep (d :: t')) [] (d :: t')
        (hs c (by simp)) hr2
      rw [joinSep_cons c (d :: t') (by simp)]
      simpa using h3

theorem splitOn_joinSep_slash : ∀ (cs : List GoStr), cs ≠ [] → (∀ c ∈ cs, '/' ∉ c) →
    splitOn '/' (joinSep cs ++ ['/']) = cs ++ [[]] := by
  intro cs
  induction cs with
  | nil => intro h; exact absurd rfl h
  | cons c t ih =>
    intro _ hs
    cases t with
    | nil =>
      have h1 : splitOn '/' (['/'] : GoStr) = [] :: [[]] := rfl
      have h2 := splitOn_append '/' c ['/'] [] [[]] (hs c (by simp)) h1
      simpa using h2
    | cons d t' =>
      have ihr : splitOn '/' (joinSep (d :: t') ++ ['/']) = (d :: t') ++ [[]] :=
        ih (by simp) (fun x hx => hs x (by simp [hx]))
      have hr2 : splitOn '/' ('/' :: (joinSep (d :: t') ++ ['/']))
          = [] :: ((d :: t') ++ [[]]) := by
        simp [splitOn, ihr]
      have h3 := splitOn_append '/' c ('/' :: (joinSep (d :: t') ++ ['/'])) []
        ((d :: t') ++ [[]]) (hs c (by simp)) hr2
      rw [joinSep_cons c (d :: t') (by simp)]
      simp only [List.append_assoc, List.cons_append] at h3 ⊢
      simpa using h3

theorem cleanStep_push (r : Bool) (st : List GoStr) (e : GoStr)
    (h1 : e ≠ []) (h2 : e ≠ str ".") (h3 : e ≠ str "..") :
    cleanStep r st e = e :: st := by
  simp [cleanStep, h1, h2, h3]

theorem cleanFold (r : Bool) : ∀ (es : List GoStr),
    (∀ e ∈ es, e ≠ [] ∧ e ≠ str "." ∧ e ≠ str "..") →
    ∀ st, es.foldl (cleanStep r) st = es.reverse ++ st := by
  intro es
  induction es with
  | nil => intro _ st; simp
  | cons e t ih =>
    intro h st
    have he := h e (by simp)
    simp only [List.foldl_cons]
    rw [cleanStep_push r st e he.1 he.2.1 he.2.2]
    rw [ih (fun x hx => h x (by simp [hx])) (e :: st)]
    simp

theorem goodComp_elems (cs : List GoStr) (hg : ∀ c ∈ cs, goodComp c) :
    ∀ e ∈ cs, e ≠ [] ∧ e ≠ str "." ∧ e ≠ str ".." :=
  fun e he => ⟨(hg e he).1, (hg e he).2.2.1, (hg e he).2.2.2⟩

theorem isRooted_good_head (ch : Char) (ct t : GoStr) (h : ch ≠ '/') :
    isRooted ((ch :: ct) ++ t) = false := by
  simp [isRooted, h]

theorem goClean_joinSep : ∀ (cs : List GoStr), cs ≠ [] → (∀ c ∈ cs, goodComp c) →
    goClean (joinSep cs) = joinSep cs := by
  intro cs hne hg
  obtain ⟨c, t, rfl⟩ : ∃ c t, cs = c :: t := by
    cases cs with
    | nil => exact absurd rfl hne
    | cons c t => exact ⟨c, t, rfl⟩
  have hcg := hg c (by simp)
  obtain ⟨ch, ct, rfl⟩ : ∃ ch ct, c = ch :: ct := by
    cases c with
    | nil => exact absurd rfl hcg.1
    | cons ch ct => exact ⟨ch, ct, rfl⟩
  have hchs : ch ≠ '/' := fun h => hcg.2.1 (by simp [h])
  obtain ⟨tl, htl⟩ := joinSep_head (ch :: ct) t
  have hpn : joinSep ((ch :: ct) :: t) ≠ [] := joinSep_ne_nil _ _ (by simp)
  have hroot : isRooted (joinSep ((ch :: ct) :: t)) = false := by
    rw [htl]; exact isRooted_good_head ch ct tl hchs
  have hsp : splitOn '/' (joinSep ((ch :: ct) :: t)) = (ch :: ct) :: t :=
    splitOn_joinSep _ (by simp) (fun x hx => (hg x hx).2.1)
  have hstack : (((splitOn '/' (joinSep ((ch :: ct) :: t))).foldl
      (cleanStep false) []).reverse : List GoStr) = (ch :: ct) :: t := by
    rw [hsp, cleanFold _ _ (goodComp_elems _ hg) []]
    simp
  have hbn : joinSep ((ch :: ct) :: t) ≠ [] := joinSep_ne_nil _ _ (by simp)
  unfold goClean
  rw [if_neg hpn, hroot, hstack, if_neg (by simp), if_neg hbn]

theorem goClean_joinSep_slash : ∀ (cs : List GoStr), cs ≠ [] → (∀ c ∈ cs, goodComp c) →
    goClean (joinSep cs ++ ['/']) = joinSep cs := by
  intro cs hne hg
  obtain ⟨c, t, rfl⟩ : ∃ c t, cs = c :: t := by
    cases cs with
    | nil => exact absurd rfl hne
    | cons c t => exact ⟨c, t, rfl⟩
  have hcg := hg c (by simp)
  obtain ⟨ch, ct, rfl⟩ : ∃ ch ct, c = ch :: ct := by
    cases c with
    | nil => exact absurd rfl hcg.1
    | cons ch ct => exact ⟨ch, ct, rfl⟩
  have hchs : ch ≠ '/' := fun h => hcg.2.1 (by simp [h])
  obtain ⟨tl, htl⟩ := joinSep_head (ch :: ct) t
  have hpn : joinSep ((ch :: ct) :: t) ++ ['/'] ≠ [] := by simp
  have hroot : isRooted (joinSep ((ch :: ct) :: t) ++ ['/']) = false := by
    rw [htl, List.append_assoc]
    exact isRooted_good_head ch ct _ hchs
  have hsp : splitOn '/' (joinSep ((ch :: ct) :: t) ++ ['/'])
      = ((ch :: ct) :: t) ++ [[]] :=
    splitOn_joinSep_slash _ (by simp) (fun x hx => (hg x hx).2.1)
  have hstack : (((splitOn '/' (joinSep ((ch :: ct) :: t) ++ ['/'])).foldl
      (cleanStep false) []).reverse : List GoStr) = (ch :: ct) :: t := by
    rw [hsp, List.foldl_append, cleanFold _ _ (goodComp_elems _ hg) []]
    simp [cleanStep]
  have hbn : joinSep ((ch :: ct) :: t) ≠ [] := joinSep_ne_nil _ _ (by simp)
  unfold goClean
  rw [if_neg hpn, hroot, hstack, if_neg (by simp), if_neg hbn]

theorem joinSep_append_singleton : ∀ (cs : List GoStr) (c : GoStr), cs ≠ [] →
    joinSep (cs ++ [c]) = joinSep cs ++ '/' :: c := by
  intro cs
  induction cs with
  | nil => intro c h; exact absurd rfl h
  | cons d t ih =>
    intro c _
    cases t with
    | nil =>
      have hs : (str "/" : GoStr) = ['/'] := rfl
      simp [joinSep, joinWith, hs, List.append_assoc]
    | cons e t' =>
      have h0 : (d :: e :: t') ++ [c] = d :: ((e :: t') ++ [c]) := rfl
      rw [h0, joinSep_cons d ((e :: t') ++ [c]) (by simp), ih c (by simp),
        joinSep_cons d (e :: t') (by simp)]
      simp

theorem joinSep_length : ∀ cs : List GoStr, cs.length ≤ (joinSep cs).length + 1 := by
  intro cs
  induction cs with
  | nil => simp [joinSep, joinWith]
  | cons c t ih =>
    cases t with
    | nil => simp [joinSep, joinWith]
    | cons d t' =>
      rw [joinSep_cons c (d :: t') (by simp)]
      simp only [List.length_append, List.length_cons] at *
      omega

theorem takeWhile_all (p : Char → Bool) : ∀ (l : GoStr), (∀ y ∈ l, p y = true) →
    l.takeWhile p = l := by
  intro l
  induction l with
  | nil => intro _; rfl
  | cons c t ih =>
    intro h
    rw [List.takeWhile_cons, if_pos (h c (by simp)), ih (fun y hy => h y (by simp [hy]))]

theorem dropWhile_all (p : Char → Bool) : ∀ (l : GoStr), (∀ y ∈ l, p y = true) →
    l.dropWhile p = [] := by
  intro l
  induction l with
  | nil => intro _; rfl
  | cons c t ih =>
    intro h
    rw [List.dropWhile_cons]
    simp only [h c (by simp), if_true]
    exact ih (fun y hy => h y (by simp [hy]))

theorem takeWhile_all_append (p : Char → Bool) (l₁ : GoStr) (x : Char) (l₂ : GoStr)
    (h1 : ∀ y ∈ l₁, p y = true) (hx : p x = false) :
    (l₁ ++ x :: l₂).takeWhile p = l₁ := by
  induction l₁ with
  | nil => simp [List.takeWhile_cons, hx]
  | cons c t ih =>
    simp only [List.cons_append, List.takeWhile_cons, h1 c (by simp), if_true]
    rw [ih (fun y hy => h1 y (by simp [hy]))]

theorem dropWhile_all_append (p : Char → Bool) (l₁ : GoStr) (x : Char) (l₂ : GoStr)
    (h1 : ∀ y ∈ l₁, p y = true) (hx : p x = false) :
    (l₁ ++ x :: l₂).dropWhile p = x :: l₂ := by
  induction l₁ with
  | nil => simp [List.dropWhile_cons, hx]
  | cons c t ih =>
    simp only [List.cons_append, List.dropWhile_cons, h1 c (by simp), if_true]
    exact ih (fun y hy => h1 y (by simp [hy]))

theorem goSplit_no_slash (c : GoStr) (h : '/' ∉ c) : goSplit c = ([], c) := by
  have hall : ∀ y ∈ c.reverse, (y != '/') = true := by
    intro y hy
    rw [List.mem_reverse] at hy
    simp only [bne_iff_ne, ne_eq]
    rintro rfl
    exact h hy
  unfold goSplit
  rw [takeWhile_all _ _ hall, dropWhile_all _ _ hall]
  simp

theorem goSplit_append (d f : GoStr) (hf : '/' ∉ f) :
    goSplit (d ++ '/' :: f) = (d ++ ['/'], f) := by
  have hrev : (d ++ '/' :: f).reverse = f.reverse ++ '/' :: d.reverse := by
    simp
  have hall : ∀ y ∈ f.reverse, (y != '/') = true := by
    intro y hy
    rw [List.mem_reverse] at hy
    simp only [bne_iff_ne, ne_eq]
    rintro rfl
    exact hf hy
  have hx : (('/' : Char) != '/') = false := by simp
  unfold goSplit
  rw [hrev, takeWhile_all_append _ _ _ _ hall hx, dropWhile_all_append _ _ _ _ hall hx]
  simp

theorem splitPathAux_joinSep : ∀ (cs : List GoStr), cs ≠ [] → (∀ c ∈ cs, goodComp c) →
    ∀ fuel acc, cs.length ≤ fuel →
      splitPathAux fuel (joinSep cs) acc = some (acc ++ cs.reverse) := by
  intro cs
  induction cs using List.reverseRecOn with
  | nil => intro h; exact absurd rfl h
  | append_singleton cs' c ih =>
    intro _ hg fuel acc hfuel
    have hgc : goodComp c := hg c (by simp)
    obtain ⟨f2, rfl⟩ : ∃ f2, fuel = f2 + 1 := by
      cases fuel with
      | zero => exfalso; simp at hfuel
      | succ f2 => exact ⟨f2, rfl⟩
    rcases eq_or_ne cs' [] with rfl | hne'
    · have hjc : joinSep ([] ++ [c]) = c := rfl
      rw [hjc]
      have hcpos : 0 < c.length := List.length_pos.mpr hgc.1
      simp only [splitPathAux, goSplit_no_slash c hgc.2.1]
      simp [hcpos, Nat.pos_iff_ne_zero.mp hcpos]
    · rw [joinSep_append_singleton cs' c hne']
      have hgood' : ∀ x ∈ cs', goodComp x := fun x hx => hg x (by simp [hx])
      have hcpos : 0 < c.length := List.length_pos.mpr hgc.1
      have hlen0 : ¬ (joinSep cs' ++ '/' :: c).length = 0 := by simp
      simp only [splitPathAux, goSplit_append (joinSep cs') c hgc.2.1, if_neg hlen0]
      have hdpos : 0 < (joinSep cs' ++ ['/']).length := by simp
      simp only [hcpos, if_pos, hdpos]
      rw [goClean_joinSep_slash cs' hne' hgood']
      have hfuel' : cs'.length ≤ f2 := by
        simp only [List.length_append, List.length_cons] at hfuel
        omega
      rw [ih hne' hgood' f2 (acc ++ [c]) hfuel']
      simp

theorem splitPath_joinSep (cs : List GoStr) (hne : cs ≠ []) (hg : ∀ c ∈ cs, goodComp c) :
    splitPath (joinSep cs) = some cs := by
  unfold splitPath
  rw [splitPathAux_joinSep cs hne hg ((joinSep cs).length + 1) []
    (by have := joinSep_length cs; omega)]
  simp

theorem goJoin_src (g0 : GoStr) (cs : List GoStr) (hne : cs ≠ [])
    (hg : ∀ c ∈ cs, goodComp c) :
    goJoin [g0, str "src", goJoin cs] = goJoin (g0 :: str "src" :: cs) := by
  obtain ⟨c, t, rfl⟩ : ∃ c t, cs = c :: t := by
    cases cs with
    | nil => exact absurd rfl hne
    | cons c t => exact ⟨c, t, rfl⟩
  have hc := hg c (by simp)
  have hJ : goJoin (c :: t) = joinSep (c :: t) := by
    simp only [goJoin, if_neg hc.1]
    exact goClean_joinSep (c :: t) (by simp) hg
  rw [hJ]
  have hsrc : (str "src" : GoStr) ≠ [] := by decide
  rcases eq_or_ne g0 [] with rfl | hg0
  · simp only [goJoin, if_pos rfl, if_neg hsrc]
    congr 1
  · simp only [goJoin, if_neg hg0]
    congr 1

/-- C4: for a module identifier with components cs (each non-empty,
separator-free and not a relative-path element) and a GOPATH whose split is
non-empty with first entry g0, packagePath returns the short name equal to
the last component and the destination equal to g0 joined with src joined
with all components in their original order. -/
theorem packagePath_resolves (cs : List GoStr) (env g0 : GoStr) (grest : List GoStr)
    (hne : cs ≠ []) (hg : ∀ c ∈ cs, goodComp c)
    (henv : splitList env = g0 :: grest) :
    packagePath env (joinSep cs)
      = some (goJoin (g0 :: str "src" :: cs), cs.getLast hne) := by
  unfold packagePath
  rw [splitPath_joinSep cs hne hg]
  simp only [Option.map_some']
  rw [henv, List.getLast?_eq_getLast cs hne]
  show some (goJoin [g0, str "src", goJoin cs], cs.getLast hne) = _
  rw [goJoin_src g0 cs hne hg]

/-- Witness for C4 at a concrete identifier and GOPATH. -/
theorem packagePath_resolves_witness :
    packagePath (str "g") (str "a/b") = some (str "g/src/a/b", str "b") := by
  have h := packagePath_resolves [str "a", str "b"] (str "g") (str "g") []
    (by simp) (by decide) (by decide)
  exact h

/-- C3 (amended): with an empty GOPATH the resolver does not fail: it still
returns the last component as short name, but the destination it returns is
the empty string (the join is skipped entirely), not the joined relative
components. -/
theorem packagePath_empty_gopath_amended (cs : List GoStr) (hne : cs ≠ [])
    (hg : ∀ c ∈ cs, goodComp c) :
    packagePath [] (joinSep cs) = some ([], cs.getLast hne) := by
  unfold packagePath
  rw [splitPath_joinSep cs hne hg]
  simp only [Option.map_some']
  rw [List.getLast?_eq_getLast cs hne]
  simp [splitList]

/-- Witness for the amended C3 at a concrete identifier. -/
theorem packagePath_empty_gopath_amended_witness :
    packagePath [] (str "a/b") = some ([], str "b") := by
  have h := packagePath_empty_gopath_amended [str "a", str "b"] (by simp) (by decide)
  exact h

/-! ### Claim theorems: C6, C1 (amended), C7 -/

/-- C6: when the computed source path holds an existing regular file and the
force flag is unset, the basic variant exits with code 7 after only the
directory creation and the error line: no file write occurs (the
pre-existing content is untouched) and no external tool is invoked. -/
theorem mkgo_exists_noforce_exit7 (fl : FlagsB) (w : World) (a0 path name : GoStr)
    (rest : List GoStr)
    (hc : fl.changelog = false) (hv : fl.version = false)
    (hpp : packagePath w.gopath a0 = some (path, name))
    (hmk : w.mkdirOk = true)
    (hst : w.stat (goJoin [path, name ++ str ".go"]) = .ok false)
    (how : fl.overwrite = false) :
    mainB fl (a0 :: rest) w
      = (Outcome.exit 7,
         [Event.mkdir path,
          Event.output (existsErrMsg (goJoin [path, name ++ str ".go"]))])
    ∧ ((mainB fl (a0 :: rest) w).2.all fun e => !e.isWrite && !e.isExec) = true := by
  have h1 : mainB fl (a0 :: rest) w
      = (Outcome.exit 7,
         [Event.mkdir path,
          Event.output (existsErrMsg (goJoin [path, name ++ str ".go"]))]) := by
    simp [mainB, hc, hv, hpp, hmk, hst, how, fileExists]
  refine ⟨h1, ?_⟩
  rw [h1]
  simp [Event.isWrite, Event.isExec]

/-- Witness for C6 at a concrete invocation. -/
theorem mkgo_exists_noforce_exit7_witness :
    mainB ⟨false, false, str "D", str "V", false⟩ [str "a/b"] wSrcFile
      = (Outcome.exit 7,
         [Event.mkdir (str "g/src/a/b"), Event.output (existsErrMsg (str "g/src/a/b/b.go"))]) := by
  have h := mkgo_exists_noforce_exit7 ⟨false, false, str "D", str "V", false⟩ wSrcFile
    (str "a/b") (str "g/src/a/b") (str "b") [] rfl rfl (by decide) rfl (by decide) rfl
  exact h.1

/-- C1 (amended): when a computed output path exists and is a directory, the
run always fails, but the condition depends on the force flag: with force
set the is-a-directory condition is reported (exit 3 for the source file in
the basic variant, exit 9 for license and readme files in the extended
variant), while without force the guard takes the already-exists branch
first (exit 7 for the source file, exit 11 for license and readme). -/
theorem mkgo_dir_conflict_force_dependent :
    (∀ (fl : FlagsB) (w : World) (a0 path name : GoStr) (rest : List GoStr),
      fl.changelog = false → fl.version = false →
      packagePath w.gopath a0 = some (path, name) → w.mkdirOk = true →
      w.stat (goJoin [path, name ++ str ".go"]) = .ok true →
      (mainB fl (a0 :: rest) w).1
        = (if fl.overwrite then Outcome.exit 3 else Outcome.exit 7))
    ∧ (∀ (fl : FlagsX) (w : World) (a0 path name : GoStr) (rest : List GoStr),
      fl.changelog = false → fl.version = false →
      packagePath w.gopath a0 = some (path, name) → w.mkdirOk = true →
      w.stat (goJoin [path, name ++ str ".go"]) = .errNotExist →
      w.writeOk (goJoin [path, name ++ str ".go"]) = true →
      w.fmtOk = true → w.initOk = true → fl.license = str "MIT" →
      w.stat (goJoin [path, str "LICENSE"]) = .ok true →
      (mainX fl (a0 :: rest) w).1
        = (if fl.overwrite then Outcome.exit 9 else Outcome.exit 11))
    ∧ (∀ (fl : FlagsX) (w : World) (a0 path name : GoStr) (rest : List GoStr),
      fl.changelog = false → fl.version = false →
      packagePath w.gopath a0 = some (path, name) → w.mkdirOk = true →
      w.stat (goJoin [path, name ++ str ".go"]) = .errNotExist →
      w.writeOk (goJoin [path, name ++ str ".go"]) = true →
      w.fmtOk = true → w.initOk = true → fl.license = str "MIT" →
      w.stat (goJoin [path, str "LICENSE"]) = .errNotExist →
      w.writeOk (goJoin [path, str "LICENSE"]) = true →
      w.stat (goJoin [path, str "README.md"]) = .ok true →
      (mainX fl (a0 :: rest) w).1
        = (if fl.overwrite then Outcome.exit 9 else Outcome.exit 11)) := by
  refine ⟨?_, ?_, ?_⟩
  · intro fl w a0 path name rest hc hv hpp hmk hst
    cases how : fl.overwrite with
    | false => simp [mainB, hc, hv, hpp, hmk, hst, how, fileExists]
    | true => simp [mainB, hc, hv, hpp, hmk, hst, how, fileExists]
  · intro fl w a0 path name rest hc hv hpp hmk hst hw hfmt hinit hlic hlicst
    cases how : fl.overwrite with
    | false =>
      simp [mainX, mainXLicense, licenseTemplate, hc, hv, hpp, hmk, hst, hw, hfmt,
        hinit, hlic, hlicst, how, fileExists]
    | true =>
      simp [mainX, mainXLicense, licenseTemplate, hc, hv, hpp, hmk, hst, hw, hfmt,
        hinit, hlic, hlicst, how, fileExists]
  · intro fl w a0 path name rest hc hv hpp hmk hst hw hfmt hinit hlic hlicst hlw hrst
    cases how : fl.overwrite with
    | false =>
      simp [mainX, mainXLicense, mainXReadme, licenseTemplate, hc, hv, hpp, hmk, hst,
        hw, hfmt, hinit, hlic, hlicst, hlw, hrst, how, fileExists]
    | true =>
      simp [mainX, mainXLicense, mainXReadme, licenseTemplate, hc, hv, hpp, hmk, hst,
        hw, hfmt, hinit, hlic, hlicst, hlw, hrst, how, fileExists]

/-- Witness for the amended C1: the three file kinds at concrete inputs. -/
theorem mkgo_dir_conflict_force_dependent_witness :
    (mainB ⟨false, false, str "D", str "V", true⟩ [str "a/b"] wSrcDir).1 = Outcome.exit 3
    ∧ (mainX ⟨false, false, str "D", str "V", false, str "MIT", str "u", false⟩
        [str "a/b"] wLicDir).1 = Outcome.exit 11
    ∧ (mainX ⟨false, false, str "D", str "V", false, str "MIT", str "u", true⟩
        [str "a/b"] wReadmeDir).1 = Outcome.exit 9 := by
  obtain ⟨h1, h2, h3⟩ := mkgo_dir_conflict_force_dependent
  refine ⟨?_, ?_, ?_⟩
  · have h := h1 ⟨false, false, str "D", str "V", true⟩ wSrcDir (str "a/b")
      (str "g/src/a/b") (str "b") [] rfl rfl (by decide) rfl (by decide)
    simpa using h
  · have h := h2 ⟨false, false, str "D", str "V", false, str "MIT", str "u", false⟩
      wLicDir (str "a/b") (str "g/src/a/b") (str "b") [] rfl rfl (by decide) rfl
      (by decide) rfl rfl rfl rfl (by decide)
    simpa using h
  · have h := h3 ⟨false, false, str "D", str "V", false, str "MIT", str "u", true⟩
      wReadmeDir (str "a/b") (str "g/src/a/b") (str "b") [] rfl rfl (by decide) rfl
      (by decide) rfl rfl rfl rfl (by decide) rfl (by decide)
    simpa using h

/-- C7: in the basic variant no external tool runs before the source file
write; the two tools are ordered (no module-init invocation precedes the
formatting invocation, and none happens at all when formatting failed); any
tool invocation implies a write whose path succeeded; a formatting failure
that ran the tool ends with exit code 5 after printing the captured output;
a module-init failure that ran the tool ends with exit code 6 after
printing the captured output. -/
theorem mkgo_tools_after_write (fl : FlagsB) (args : List GoStr) (w : World) :
    (((mainB fl args w).2.takeWhile fun e => !e.isWrite).all fun e => !e.isExec) = true
    ∧ (((mainB fl args w).2.takeWhile fun e => !(Event.isExecOf (str "goimports") e)).all
        fun e => !(Event.isExecOf (str "go") e)) = true
    ∧ ((mainB fl args w).2.any Event.isExec = true →
        ((mainB fl args w).2.any (Event.isOkWrite w)) = true)
    ∧ (w.fmtOk = false → ((mainB fl args w).2.any (Event.isExecOf (str "go"))) = false)
    ∧ (w.fmtOk = false → ((mainB fl args w).2.any Event.isExec) = true →
        (mainB fl args w).1 = Outcome.exit 5 ∧ Event.output w.fmtOut ∈ (mainB fl args w).2)
    ∧ (w.fmtOk = true → w.initOk = false →
        ((mainB fl args w).2.any (Event.isExecOf (str "go"))) = true →
        (mainB fl args w).1 = Outcome.exit 6
          ∧ Event.output w.initOut ∈ (mainB fl args w).2) := by
  cases hc : fl.changelog with
  | true =>
    simp +decide [mainB, hc, Event.isWrite, Event.isExec, Event.isExecOf, Event.isOkWrite]
  | false =>
  cases hv : fl.version with
  | true =>
    simp +decide [mainB, hc, hv, Event.isWrite, Event.isExec, Event.isExecOf,
      Event.isOkWrite]
  | false =>
  cases args with
  | nil =>
    simp +decide [mainB, hc, hv, Event.isWrite, Event.isExec, Event.isExecOf,
      Event.isOkWrite]
  | cons a0 rest =>
  cases hpp : packagePath w.gopath a0 with
  | none =>
    simp +decide [mainB, hc, hv, hpp, Event.isWrite, Event.isExec, Event.isExecOf,
      Event.isOkWrite]
  | some pn =>
  obtain ⟨path, name⟩ := pn
  cases hmk : w.mkdirOk with
  | false =>
    simp +decide [mainB, hc, hv, hpp, hmk, Event.isWrite, Event.isExec, Event.isExecOf,
      Event.isOkWrite]
  | true =>
  cases hfe : fileExists (w.stat (goJoin [path, name ++ str ".go"])) with
  | none =>
    simp +decide [mainB, hc, hv, hpp, hmk, hfe, Event.isWrite, Event.isExec,
      Event.isExecOf, Event.isOkWrite]
  | some exd =>
  obtain ⟨ex, isDir⟩ := exd
  cases hb : (!ex || fl.overwrite) with
  | false =>
    simp +decide [mainB, hc, hv, hpp, hmk, hfe, hb, Event.isWrite, Event.isExec,
      Event.isExecOf, Event.isOkWrite]
  | true =>
  cases hdir : isDir with
  | true =>
    simp +decide [mainB, hc, hv, hpp, hmk, hfe, hb, hdir, Event.isWrite, Event.isExec,
      Event.isExecOf, Event.isOkWrite]
  | false =>
  cases hwr : w.writeOk (goJoin [path, name ++ str ".go"]) with
  | false =>
    simp +decide [mainB, hc, hv, hpp, hmk, hfe, hb, hdir, hwr, Event.isWrite,
      Event.isExec, Event.isExecOf, Event.isOkWrite]
  | true =>
  cases hfmt : w.fmtOk with
  | false =>
    simp +decide [mainB, hc, hv, hpp, hmk, hfe, hb, hdir, hwr, hfmt, Event.isWrite,
      Event.isExec, Event.isExecOf, Event.isOkWrite]
  | true =>
  cases hinit : w.initOk with
  | false =>
    simp +decide [mainB, hc, hv, hpp, hmk, hfe, hb, hdir, hwr, hfmt, hinit,
      Event.isWrite, Event.isExec, Event.isExecOf, Event.isOkWrite]
  | true =>
    simp +decide [mainB, hc, hv, hpp, hmk, hfe, hb, hdir, hwr, hfmt, hinit,
      Event.isWrite, Event.isExec, Event.isExecOf, Event.isOkWrite]

/-- Witness for C7: a run whose formatting tool fails exits with code 5,
prints the captured output, and never invokes the module-init tool. -/
theorem mkgo_tools_after_write_witness :
    (mainB ⟨false, false, str "D", str "V", false⟩ [str "a/b"] wFmtFail).1 = Outcome.exit 5
    ∧ Event.output (str "fmtlog")
        ∈ (mainB ⟨false, false, str "D", str "V", false⟩ [str "a/b"] wFmtFail).2
    ∧ ((mainB ⟨false, false, str "D", str "V", false⟩ [str "a/b"] wFmtFail).2.any
        (Event.isExecOf (str "go"))) = false := by
  obtain ⟨h1, h2, h3, h4, h5, h6⟩ := mkgo_tools_after_write
    ⟨false, false, str "D", str "V", false⟩ [str "a/b"] wFmtFail
  have hf : wFmtFail.fmtOk = false := rfl
  have h5' := h5 hf (by decide)
  exact ⟨h5'.1, h5'.2, h4 hf⟩

/-! ### Template engine lemmas and C5 -/

theorem replaceScan_fuel (pat rep : GoStr) :
    ∀ fuel (s : GoStr), s.length ≤ fuel → ∀ fuel', s.length ≤ fuel' →
      replaceScan pat rep fuel s = replaceScan pat rep fuel' s := by
  intro fuel
  induction fuel with
  | zero =>
    intro s hs fuel' hs'
    cases s with
    | nil => cases fuel' <;> rfl
    | cons c rest => simp at hs
  | succ f ih =>
    intro s hs fuel' hs'
    cases s with
    | nil => cases fuel' <;> rfl
    | cons c rest =>
      cases fuel' with
      | zero => simp at hs'
      | succ f' =>
        simp only [List.length_cons] at hs hs'
        simp only [replaceScan]
        by_cases hpre : pat.isPrefixOf (c :: rest) = true
        · rw [if_pos hpre, if_pos hpre]
          congr 1
          exact ih _ (by rw [List.length_drop]; omega) _ (by rw [List.length_drop]; omega)
        · rw [if_neg hpre, if_neg hpre]
          congr 1
          exact ih _ (by omega) _ (by omega)

theorem splitTokF_fuel (pat : GoStr) :
    ∀ fuel (s : GoStr), s.length ≤ fuel → ∀ fuel', s.length ≤ fuel' →
      splitTokF pat fuel s = splitTokF pat fuel' s := by
  intro fuel
  induction fuel with
  | zero =>
    intro s hs fuel' hs'
    cases s with
    | nil => cases fuel' <;> rfl
    | cons c rest => simp at hs
  | succ f ih =>
    intro s hs fuel' hs'
    cases s with
    | nil => cases fuel' <;> rfl
    | cons c rest =>
      cases fuel' with
      | zero => simp at hs'
      | succ f' =>
        simp only [List.length_cons] at hs hs'
        simp only [splitTokF]
        by_cases hpre : pat.isPrefixOf (c :: rest) = true
        · rw [if_pos hpre, if_pos hpre]
          congr 1
          exact ih _ (by rw [List.length_drop]; omega) _ (by rw [List.length_drop]; omega)
        · rw [if_neg hpre, if_neg hpre]
          congr 1
          exact ih _ (by omega) _ (by omega)

theorem replaceStr_cons (pat rep : GoStr) (c : Char) (rest : GoStr) :
    replaceStr pat rep (c :: rest)
      = if pat.isPrefixOf (c :: rest) then
          rep ++ replaceStr pat rep (rest.drop (pat.length - 1))
        else c :: replaceStr pat rep rest := by
  unfold replaceStr
  simp only [List.length_cons, replaceScan]
  by_cases hpre : pat.isPrefixOf (c :: rest) = true
  · rw [if_pos hpre, if_pos hpre]
    congr 1
    exact replaceScan_fuel pat rep rest.length _ (by rw [List.length_drop]; omega)
      _ (le_refl _)
  · rw [if_neg hpre, if_neg hpre]

theorem splitTok_cons (pat : GoStr) (c : Char) (rest : GoStr) :
    splitTok pat (c :: rest)
      = if pat.isPrefixOf (c :: rest) then
          [] :: splitTok pat (rest.drop (pat.length - 1))
        else
          match splitTok pat rest with
          | [] => [[c]]
          | q :: qs => (c :: q) :: qs := by
  unfold splitTok
  simp only [List.length_cons, splitTokF]
  by_cases hpre : pat.isPrefixOf (c :: rest) = true
  · rw [if_pos hpre, if_pos hpre]
    congr 1
    exact splitTokF_fuel pat rest.length _ (by rw [List.length_drop]; omega) _ (le_refl _)
  · rw [if_neg hpre, if_neg hpre]

theorem splitTok_ne_nil (pat s : GoStr) : splitTok pat s ≠ [] := by
  cases s with
  | nil => simp [splitTok, splitTokF]
  | cons c rest =>
    rw [splitTok_cons]
    split
    · simp
    · split <;> simp

theorem splitTok_exists_cons (pat s : GoStr) : ∃ q qs, splitTok pat s = q :: qs := by
  cases hsp : splitTok pat s with
  | nil => exact absurd hsp (splitTok_ne_nil _ _)
  | cons q qs => exact ⟨q, qs, rfl⟩

theorem joinWith_cons_piece (sep : GoStr) (c : Char) (q : GoStr) (qs : List GoStr) :
    joinWith sep ((c :: q) :: qs) = c :: joinWith sep (q :: qs) := by
  cases qs with
  | nil => rfl
  | cons r t => rfl

theorem joinWith_head (sep q0 : GoStr) (qs : List GoStr) :
    ∃ t, joinWith sep (q0 :: qs) = q0 ++ t := by
  cases qs with
  | nil => exact ⟨[], by simp [joinWith]⟩
  | cons r t =>
    refine ⟨sep ++ joinWith sep (r :: t), ?_⟩
    simp [joinWith, List.append_assoc]

theorem replaceStr_eq_joinWith (pat rep : GoStr) : ∀ (n : Nat) (s : GoStr),
    s.length ≤ n → replaceStr pat rep s = joinWith rep (splitTok pat s) := by
  intro n
  induction n with
  | zero =>
    intro s hs
    cases s with
    | nil => rfl
    | cons c rest => simp at hs
  | succ m ih =>
    intro s hs
    cases s with
    | nil => rfl
    | cons c rest =>
      simp only [List.length_cons] at hs
      rw [replaceStr_cons, splitTok_cons]
      by_cases hpre : pat.isPrefixOf (c :: rest) = true
      · rw [if_pos hpre, if_pos hpre]
        have hd : (rest.drop (pat.length - 1)).length ≤ m := by
          rw [List.length_drop]; omega
        rw [ih _ hd]
        obtain ⟨q, qs, hq⟩ := splitTok_exists_cons pat (rest.drop (pat.length - 1))
        rw [hq]
        rfl
      · rw [if_neg hpre, if_neg hpre]
        rw [ih _ (by omega)]
        obtain ⟨q, qs, hq⟩ := splitTok_exists_cons pat rest
        rw [hq]
        exact (joinWith_cons_piece rep c q qs).symm

theorem joinWith_splitTok (pat : GoStr) (hp : pat ≠ []) : ∀ (n : Nat) (s : GoStr),
    s.length ≤ n → joinWith pat (splitTok pat s) = s := by
  intro n
  induction n with
  | zero =>
    intro s hs
    cases s with
    | nil => rfl
    | cons c rest => simp at hs
  | succ m ih =>
    intro s hs
    cases s with
    | nil => rfl
    | cons c rest =>
      simp only [List.length_cons] at hs
      rw [splitTok_cons]
      by_cases hpre : pat.isPrefixOf (c :: rest) = true
      · rw [if_pos hpre]
        obtain ⟨q, qs, hq⟩ := splitTok_exists_cons pat (rest.drop (pat.length - 1))
        rw [hq]
        have hd : (rest.drop (pat.length - 1)).length ≤ m := by
          rw [List.length_drop]; omega
        have ih' := ih (rest.drop (pat.length - 1)) hd
        rw [hq] at ih'
        show pat ++ joinWith pat (q :: qs) = c :: rest
        rw [ih']
        have hpre' : pat <+: (c :: rest) := List.isPrefixOf_iff_prefix.mp hpre
        obtain ⟨t, ht⟩ := hpre'
        obtain ⟨p0, ptail, rfl⟩ : ∃ p0 ptail, pat = p0 :: ptail := by
          cases pat with
          | nil => exact absurd rfl hp
          | cons p0 ptail => exact ⟨p0, ptail, rfl⟩
        have hlen : (p0 :: ptail).length - 1 = ptail.length := by simp
        have ht' : p0 :: (ptail ++ t) = c :: rest := ht
        injection ht' with h1 h2
        have hdrop : rest.drop ((p0 :: ptail).length - 1) = t := by
          rw [hlen, ← h2, List.drop_left]
        rw [hdrop]
        exact ht
      · rw [if_neg hpre]
        obtain ⟨q, qs, hq⟩ := splitTok_exists_cons pat rest
        rw [hq]
        show joinWith pat ((c :: q) :: qs) = c :: rest
        rw [joinWith_cons_piece]
        have ih' := ih rest (by omega)
        rw [hq] at ih'
        rw [ih']

theorem splitTok_pieces (pat : GoStr) (hp : pat ≠ []) : ∀ (n : Nat) (s : GoStr),
    s.length ≤ n → ∀ q ∈ splitTok pat s, ¬ pat <:+: q := by
  intro n
  induction n with
  | zero =>
    intro s hs q hq
    cases s with
    | nil =>
      have : q = [] := by simpa [splitTok, splitTokF] using hq
      subst this
      intro hinf
      exact hp (List.infix_nil.mp hinf)
    | cons c rest => simp at hs
  | succ m ih =>
    intro s hs q hq
    cases s with
    | nil =>
      have : q = [] := by simpa [splitTok, splitTokF] using hq
      subst this
      intro hinf
      exact hp (List.infix_nil.mp hinf)
    | cons c rest =>
      simp only [List.length_cons] at hs
      rw [splitTok_cons] at hq
      by_cases hpre : pat.isPrefixOf (c :: rest) = true
      · rw [if_pos hpre] at hq
        rcases List.mem_cons.mp hq with rfl | hq'
        · intro hinf
          exact hp (List.infix_nil.mp hinf)
        · exact ih _ (by rw [List.length_drop]; omega) q hq'
      · rw [if_neg hpre] at hq
        obtain ⟨q0, qs, hq0⟩ := splitTok_exists_cons pat rest
        rw [hq0] at hq
        have hq'' : q ∈ (c :: q0) :: qs := hq
        have hnotpre : ¬ pat <+: (c :: rest) := fun hcon =>
          hpre (List.isPrefixOf_iff_prefix.mpr hcon)
        rcases List.mem_cons.mp hq'' with rfl | hq' 
        · intro hinf
          rcases List.infix_cons_iff.mp hinf with hpref | hinf'
          · have hrest : joinWith pat (q0 :: qs) = rest := by
              have h2 := joinWith_splitTok pat hp m rest (by omega)
              rw [hq0] at h2
              exact h2
            obtain ⟨tl, htl⟩ := joinWith_head pat q0 qs
            have hrt : rest = q0 ++ tl := by rw [← hrest, htl]
            have hq0pre : (c :: q0) <+: (c :: rest) := by
              rw [hrt]
              exact ⟨tl, rfl⟩
            exact hnotpre (hpref.trans hq0pre)
          · exact ih rest (by omega) q0 (by rw [hq0]; simp) hinf'
        · exact ih rest (by omega) q (by rw [hq0]; simp [hq'])
  
theorem replaceStr_of_not_infix (pat rep : GoStr) : ∀ (n : Nat) (s : GoStr),
    s.length ≤ n → ¬ pat <:+: s → replaceStr pat rep s = s := by
  intro n
  induction n with
  | zero =>
    intro s hs hnot
    cases s with
    | nil => rfl
    | cons c rest => simp at hs
  | succ m ih =>
    intro s hs hnot
    cases s with
    | nil => rfl
    | cons c rest =>
      simp only [List.length_cons] at hs
      rw [replaceStr_cons]
      by_cases hpre : pat.isPrefixOf (c :: rest) = true
      · exact absurd (List.isPrefixOf_iff_prefix.mp hpre).isInfix hnot
      · rw [if_neg hpre]
        congr 1
        exact ih rest (by omega) (fun hinf => hnot (List.infix_cons_iff.mpr (Or.inr hinf)))

theorem insertB_untouched (tmpl : Template) (n d v : GoStr)
    (h : ∀ line ∈ tmpl, ¬ str "__NAME__" <:+: line ∧ ¬ str "__DATE__" <:+: line
        ∧ ¬ str "__VERSION__" <:+: line) :
    insertB tmpl n d v = tmpl := by
  unfold insertB
  have hall : ∀ line ∈ tmpl,
      replaceAll (replaceAll (replaceAll line (str "__NAME__") n)
        (str "__DATE__") d) (str "__VERSION__") v = line := by
    intro line hl
    obtain ⟨h1, h2, h3⟩ := h line hl
    have e1 : replaceAll line (str "__NAME__") n = line := by
      unfold replaceAll
      rw [if_neg (by decide)]
      exact replaceStr_of_not_infix _ n line.length line (le_refl _) h1
    rw [e1]
    have e2 : replaceAll line (str "__DATE__") d = line := by
      unfold replaceAll
      rw [if_neg (by decide)]
      exact replaceStr_of_not_infix _ d line.length line (le_refl _) h2
    rw [e2]
    unfold replaceAll
    rw [if_neg (by decide)]
    exact replaceStr_of_not_infix _ v line.length line (le_refl _) h3
  rw [List.map_congr_left hall]
  simp

/-- C5 (amended): per-token characterization of rendering.  Each replacement
step rewrites the text as its pattern-free pieces (the decomposition
reassembles to the text) interleaved with the replacement value, so the
value appears exactly at the locations the sentinel occupied at that step;
a text without the sentinel is left unchanged, and a template none of whose
lines contains any of the three sentinels is left unchanged by insert.
Zero remaining sentinels for supplied tokens does not hold in general: a
later replacement can fuse fragments into an earlier token's sentinel (see
the counterexample), which is why the claim is stated per replacement
step. -/
theorem replaceAll_characterization (s pat rep n d v : GoStr) (tmpl : Template)
    (hp : pat ≠ []) :
    replaceAll s pat rep = joinWith rep (splitTok pat s)
    ∧ joinWith pat (splitTok pat s) = s
    ∧ (∀ q ∈ splitTok pat s, ¬ pat <:+: q)
    ∧ (¬ pat <:+: s → replaceAll s pat rep = s)
    ∧ ((∀ line ∈ tmpl, ¬ str "__NAME__" <:+: line ∧ ¬ str "__DATE__" <:+: line
          ∧ ¬ str "__VERSION__" <:+: line) → insertB tmpl n d v = tmpl) := by
  have hra : replaceAll s pat rep = replaceStr pat rep s := by
    unfold replaceAll
    rw [if_neg hp]
  refine ⟨?_, ?_, ?_, ?_, ?_⟩
  · rw [hra]
    exact replaceStr_eq_joinWith pat rep s.length s (le_refl _)
  · exact joinWith_splitTok pat hp s.length s (le_refl _)
  · exact splitTok_pieces pat hp s.length s (le_refl _)
  · intro hn
    rw [hra]
    exact replaceStr_of_not_infix pat rep s.length s (le_refl _) hn
  · exact insertB_untouched tmpl n d v

/-- Witness for the amended C5 at a concrete text and token. -/
theorem replaceAll_characterization_witness :
    replaceAll (str "a__NAME__b") (str "__NAME__") (str "X")
      = joinWith (str "X") (splitTok (str "__NAME__") (str "a__NAME__b"))
    ∧ joinWith (str "__NAME__") (splitTok (str "__NAME__") (str "a__NAME__b"))
      = str "a__NAME__b" := by
  have h := replaceAll_characterization (str "a__NAME__b") (str "__NAME__") (str "X")
    (str "n") (str "d") (str "v") [str "hello"] (by decide)
  exact ⟨h.1, h.2.1⟩
